import Mathlib

/-!
Verification of `LSTM_Model.py` (sentiment-classification training script).

The script's data-preparation pipeline and training-loop logic are embedded
shallowly: sentences are `String`s, the tokenizer (`nltk.word_tokenize`) is an
abstract parameter `tokenize : String → List String`, numeric tensor entries
are rationals (`ℚ`), NumPy / Torch arrays are lists of lists, and Python
dictionaries built by the script are association lists.  Fallible Python code
(dictionary lookup that may raise `KeyError`) returns `Option`.
-/

namespace LSTMModel

/-! Vocabulary builder (`extract_vocab_dict_and_msl`, lines 69-78) -/

/-- The `ms_len` accumulation of `extract_vocab_dict_and_msl`:
`if ms_len < len(tokens_in_sentence): ms_len = len(tokens_in_sentence)`
folded over all sentences, starting from `0`. -/
def msLen (tokenize : String → List String) (sentences : List String) : Nat :=
  sentences.foldl
    (fun m s => if m < (tokenize s).length then (tokenize s).length else m) 0

/-- The `tokens` accumulation of `extract_vocab_dict_and_msl`:
`tokens += tokens_in_sentence` folded over all sentences, starting from `[]`. -/
def allTokens (tokenize : String → List String) (sentences : List String) :
    List String :=
  sentences.foldl (fun acc s => acc ++ tokenize s) []

/-- Embedding of `extract_vocab_dict_and_msl(sentences_train, sentences_dev, sentences_val)`:
tokenizes `list(train) + list(dev) + list(val)`, and returns
`{key: i for key, i in zip(set(tokens), range(1, len(set(tokens))+1))}`
together with the maximum sentence length.  `set(tokens)` (an unordered
duplicate-free collection of the distinct tokens) is modelled by
`List.dedup`. -/
def extract_vocab_dict_and_msl (tokenize : String → List String)
    (sentences_train sentences_dev sentences_val : List String) :
    List (String × Nat) × Nat :=
  let sentences := sentences_train ++ sentences_dev ++ sentences_val
  let tokens := allTokens tokenize sentences
  (tokens.dedup.zip (List.range' 1 tokens.dedup.length),
   msLen tokenize sentences)

/-! Sequence encoder (`convert_to_ids`, lines 80-94) -/

/-- NumPy dtypes relevant here: `np.empty((n, m))` with no dtype argument
allocates a `float64` array, and integer values stored into it are stored as
floats. -/
inductive DType where
  | float64
  | int64
  deriving DecidableEq

/-- A 2-D NumPy array: a dtype plus its rows (entries as rationals). -/
structure NpArray where
  dtype : DType
  rows : List (List ℚ)
  deriving DecidableEq

/-- One token lookup of `convert_to_ids`:
`try: word_ids.append(vocab_dict[token]) except: word_ids.append(vocab_dict[token])` —
the `except` branch performs the identical lookup, whose failure propagates
(is not caught by its own `try`). -/
def tryLookup (vocab_dict : List (String × Nat)) (token : String) :
    Option Nat :=
  match vocab_dict.lookup token with
  | some v => some v
  | none =>
    match vocab_dict.lookup token with
    | some v => some v
    | none => none

/-- The `word_ids` list built for one sentence by `convert_to_ids`; `none`
when any token's lookup raises. -/
def word_ids_of (vocab_dict : List (String × Nat)) (tokens : List String) :
    Option (List Nat) :=
  tokens.mapM (tryLookup vocab_dict)

/-- Integer ids stored into a float (`float64`) NumPy row: each `Nat` id
becomes the corresponding rational. -/
def natCastRow (l : List Nat) : List ℚ :=
  l.map (fun n : Nat => (n : ℚ))

/-- The row written by `convert_to_ids` for one sentence:
`x[idx] = word_ids[:pad_to]` if `pad_to < len(word_ids)` else
`x[idx] = word_ids + [0] * (pad_to - len(word_ids))`; integer ids are stored
into the float array as rationals. -/
def rowOf (pad_to : Nat) (word_ids : List Nat) : List ℚ :=
  if pad_to < word_ids.length then
    natCastRow (word_ids.take pad_to)
  else
    natCastRow (word_ids ++ List.replicate (pad_to - word_ids.length) 0)

/-- The body of one `for idx, sentence in enumerate(raw_sentences)` iteration
of `convert_to_ids`: build `word_ids`, then the row written into `x[idx]`. -/
def encodeRow (tokenize : String → List String)
    (vocab_dict : List (String × Nat)) (pad_to : Nat) (sentence : String) :
    Option (List ℚ) := do
  let word_ids ← word_ids_of vocab_dict (tokenize sentence)
  pure (rowOf pad_to word_ids)

/-- Embedding of `convert_to_ids(raw_sentences, vocab_dict, pad_to)`: allocates
`np.empty((len(raw_sentences), pad_to))` (dtype `float64`) and fills every row;
a failed token lookup aborts the whole call (`none`). -/
def convert_to_ids (tokenize : String → List String)
    (raw_sentences : List String) (vocab_dict : List (String × Nat))
    (pad_to : Nat) : Option NpArray := do
  let rows ← raw_sentences.mapM (encodeRow tokenize vocab_dict pad_to)
  pure ⟨DType.float64, rows⟩

/-! Embedding lookup table (`get_glove_table`, lines 106-114) -/

/-- The row `get_glove_table` writes for a vocabulary id:
`glove_dict[token_id] if token_id in glove_dict else torch.ones((1, 50))`. -/
def gloveRow (glove_dict : Nat → Option (List ℚ)) (token_id : Nat) : List ℚ :=
  match glove_dict token_id with
  | some v => v
  | none => List.replicate 50 1

/-- Embedding of `get_glove_table(vocab_dict, glove_dict)`: allocates
`torch.empty((len(vocab_dict)+2, 50))` — modelled as an arbitrary initial row
list `init` (unspecified contents) whose shape is hypothesised in the
theorems — then for each `token_id` in `sorted(vocab_dict.values())` writes
`glove_dict[token_id]` if present else a row of ones, and finally writes row
`0` as zeros.  `vocabIds` stands for `vocab_dict.values()` and `glove_dict`
is the id-indexed embedding mapping built by `get_glove_embeddings`. -/
def get_glove_table (vocabIds : List Nat) (glove_dict : Nat → Option (List ℚ))
    (init : List (List ℚ)) : List (List ℚ) :=
  ((vocabIds.mergeSort (fun a b => decide (a ≤ b))).foldl
    (fun table token_id => table.set token_id (gloveRow glove_dict token_id))
    init).set 0 (List.replicate 50 0)

/-- Row count of the embedding layer: `SentimentLSTM.__init__` sizes the embedding layer as
`nn.Embedding(vocab_size + 2, args.embedding_dim, padding_idx=0)`. -/
def embeddingNumRows (vocab_size : Nat) : Nat := vocab_size + 2

/-! Packed-sequence lengths (`SentimentLSTM.forward`, lines 129-138) -/

/-- Embedding of `n_zeros = torch.sum(x[:, sentence_idx, :] == 0)` for one sequence's
embedded rows: the number of zero scalar entries across the whole
`(seq_len, 50)` slice. -/
def countZeroEntries (rows : List (List ℚ)) : Nat :=
  (rows.map (fun r => r.countP (fun e => decide (e = 0)))).sum

/-- Embedding of `lenghts.append(args.seq_len - n_zeros.item())` with
`n_zeros = torch.sum(x[:, sentence_idx, :] == 0) / 50`: the per-sequence
length handed to `pack_padded_sequence`, a float (rational) value. -/
def codeLength (seq_len : Nat) (rows : List (List ℚ)) : ℚ :=
  (seq_len : ℚ) - (countZeroEntries rows : ℚ) / 50

/-- The `lenghts` list built by the `for sentence_idx in range(x.shape[1])`
loop of `forward`: one `codeLength` per sequence of the batch
(`batch` lists each sequence's embedded rows). -/
def forwardLengths (seq_len : Nat) (batch : List (List (List ℚ))) : List ℚ :=
  batch.map (codeLength seq_len)

/-- Number of embedding rows of a sequence that are entirely zero. -/
def allZeroRowCount (rows : List (List ℚ)) : Nat :=
  rows.countP (fun r => r.all (fun e => decide (e = 0)))

/-- The spec's description of the packed length: `seq_len` minus the number
of all-zero embedding rows of the sequence.  (Spec-side definition, to be
compared with `codeLength`.) -/
def specLength (seq_len : Nat) (rows : List (List ℚ)) : ℚ :=
  (seq_len : ℚ) - (allZeroRowCount rows : ℚ)

/-! Mini-batch slicing (training loop lines 195-198, `acc` lines 57-62) -/

/-- Python slice `l[a:b]` (with `0 ≤ a ≤ b`, clamped to the list length). -/
def pySlice (l : List α) (a b : Nat) : List α := (l.take b).drop a

/-- The index ranges of the training loop:
`for batch in range(len(x_train)//args.batch_size + 1):
  inds = slice(batch*args.batch_size, (batch+1)*args.batch_size)`. -/
def trainBatchBounds (n batch_size : Nat) : List (Nat × Nat) :=
  (List.range (n / batch_size + 1)).map
    (fun batch => (batch * batch_size, (batch + 1) * batch_size))

/-- The index ranges of the batched accuracy function `acc`:
`for batch in range(len(x) // args.batch_size + 1):
  inds = slice(batch * args.batch_size, (batch + 1) * args.batch_size)`. -/
def accBatchBounds (n batch_size : Nat) : List (Nat × Nat) :=
  (List.range (n / batch_size + 1)).map
    (fun batch => (batch * batch_size, (batch + 1) * batch_size))

/-- The actual training batches of one epoch: the slices of the training
set taken in loop order. -/
def epochBatches (batch_size : Nat) (x_train : List α) : List (List α) :=
  (trainBatchBounds x_train.length batch_size).map
    (fun p => pySlice x_train p.1 p.2)

/-! Checkpointing (training loop lines 189-220) -/

/-- State of the checkpoint logic: `acc_dev_best` and the accuracy value the
saved checkpoint corresponds to (`none` before any save). -/
structure CkptState where
  acc_dev_best : ℚ
  saved : Option ℚ
  deriving DecidableEq

/-- One epoch's checkpoint step:
`if acc_val > acc_dev_best and SAVE_MODEL: acc_dev_best = acc_val;
torch.save(...)`. -/
def ckptStep (save_model : Bool) (s : CkptState) (acc_val : ℚ) : CkptState :=
  if acc_val > s.acc_dev_best ∧ save_model = true then
    ⟨acc_val, some acc_val⟩
  else s

/-- The checkpoint state after running the epoch loop over the given
validation accuracies, starting from `acc_dev_best = 0` and no saved
checkpoint. -/
def runCkpt (save_model : Bool) (acc_vals : List ℚ) : CkptState :=
  acc_vals.foldl (ckptStep save_model) ⟨0, none⟩

/-! No-information rate (lines 186-187) -/

/-- Embedding of the counts of `torch.unique(y_dev, return_counts=True)`: the occurrence count
of each distinct label. -/
def labelCounts (y : List Nat) : List Nat :=
  y.dedup.map (fun v => y.count v)

/-- Embedding of `100*labels_ditrib[1].max().item()/len(y_dev)`: the reported
no-information rate. -/
def noInfoRate (y : List Nat) : ℚ :=
  100 * (((labelCounts y).foldl max 0 : Nat) : ℚ) / (y.length : ℚ)

/-- A concrete tokenizer used to evaluate the development on closed inputs:
each sentence is a single token. -/
def tokSelf : String → List String := fun s => [s]

/-! General list lemmas used by the proofs -/

theorem foldl_max_init_le {α : Type} [LinearOrder α] (l : List α) (b : α) :
    b ≤ l.foldl max b := by
  induction l generalizing b with
  | nil => exact le_rfl
  | cons a l ih => exact le_trans (le_max_left b a) (ih (max b a))

theorem le_foldl_max_of_mem {α : Type} [LinearOrder α] {l : List α} {a : α}
    (h : a ∈ l) (b : α) : a ≤ l.foldl max b := by
  induction l generalizing b with
  | nil => cases h
  | cons x l ih =>
    rcases List.mem_cons.mp h with rfl | h
    · exact le_trans (le_max_right b a) (foldl_max_init_le l (max b a))
    · exact ih h (max b x)

theorem foldl_max_eq_or_mem {α : Type} [LinearOrder α] (l : List α) (b : α) :
    l.foldl max b = b ∨ l.foldl max b ∈ l := by
  induction l generalizing b with
  | nil => exact Or.inl rfl
  | cons x l ih =>
    rw [List.foldl_cons]
    rcases ih (max b x) with h | h
    · rcases max_choice b x with hb | hx
      · exact Or.inl (h.trans hb)
      · exact Or.inr (by rw [h, hx]; exact List.mem_cons_self x l)
    · exact Or.inr (List.mem_cons_of_mem x h)

theorem mapM_eq_none_of_mem {α β : Type} (f : α → Option β) {l : List α}
    {x : α} (hx : x ∈ l) (hf : f x = none) : l.mapM f = none := by
  induction l with
  | nil => cases hx
  | cons a l ih =>
    rw [List.mapM_cons]
    rcases List.mem_cons.mp hx with rfl | hx
    · rw [hf]; rfl
    · cases ha : f a with
      | none => rfl
      | some y => rw [ih hx]; rfl

theorem mapM_option_spec {α β : Type} (f : α → Option β) (l : List α)
    (h : ∀ x ∈ l, (f x).isSome) :
    ∃ ys : List β, l.mapM f = some ys ∧ ys.length = l.length ∧
      ∀ k (hk : k < l.length), ys[k]? = f (l.get ⟨k, hk⟩) := by
  induction l with
  | nil => exact ⟨[], rfl, rfl, fun k hk => absurd hk (by simp)⟩
  | cons a l ih =>
    obtain ⟨y, hy⟩ := Option.isSome_iff_exists.mp (h a (List.mem_cons_self a l))
    obtain ⟨ys, hys, hlen, hget⟩ := ih (fun x hx => h x (List.mem_cons_of_mem a hx))
    refine ⟨y :: ys, ?_, by simp [hlen], ?_⟩
    · rw [List.mapM_cons, hy, hys]; rfl
    · intro k hk
      cases k with
      | zero => simp [hy]
      | succ k => simpa using hget k (Nat.lt_of_succ_lt_succ hk)

theorem mapM_some_length {α β : Type} (f : α → Option β) {l : List α}
    {ys : List β} (h : l.mapM f = some ys) : ys.length = l.length := by
  induction l generalizing ys with
  | nil =>
    rw [List.mapM_nil] at h
    cases h
    rfl
  | cons a l ih =>
    rw [List.mapM_cons] at h
    cases ha : f a with
    | none => rw [ha] at h; cases h
    | some y =>
      rw [ha] at h
      cases hl : l.mapM f with
      | none => rw [hl] at h; cases h
      | some zs =>
        rw [hl] at h
        cases h
        simp [ih hl]

/-! Lemmas about the embedded program -/

theorem tryLookup_eq_lookup (vocab_dict : List (String × Nat)) (t : String) :
    tryLookup vocab_dict t = vocab_dict.lookup t := by
  unfold tryLookup
  cases vocab_dict.lookup t <;> rfl

theorem encodeRow_eq_none (tokenize : String → List String)
    (vocab_dict : List (String × Nat)) (pad_to : Nat) (sentence : String)
    (hw : word_ids_of vocab_dict (tokenize sentence) = none) :
    encodeRow tokenize vocab_dict pad_to sentence = none := by
  unfold encodeRow
  rw [hw]
  rfl

theorem encodeRow_eq_some (tokenize : String → List String)
    (vocab_dict : List (String × Nat)) (pad_to : Nat) (sentence : String)
    (ids : List Nat) (hw : word_ids_of vocab_dict (tokenize sentence) = some ids) :
    encodeRow tokenize vocab_dict pad_to sentence = some (rowOf pad_to ids) := by
  unfold encodeRow
  rw [hw]
  rfl

/-- Claim C2: For every call to the sequence encoder containing a token absent
from the vocabulary mapping, the call fails with a fatal lookup error (the
whole conversion returns `none`); the token is never substituted by a
fallback id, because the exception branch performs the identical dictionary
lookup (`tryLookup` coincides with the plain lookup). -/
theorem claim_C2_oov_fatal (tokenize : String → List String)
    (raw_sentences : List String) (vocab_dict : List (String × Nat))
    (pad_to : Nat) (s t : String) (hs : s ∈ raw_sentences)
    (ht : t ∈ tokenize s) (habs : vocab_dict.lookup t = none) :
    tryLookup vocab_dict t = vocab_dict.lookup t ∧
    convert_to_ids tokenize raw_sentences vocab_dict pad_to = none := by
  refine ⟨tryLookup_eq_lookup _ _, ?_⟩
  have hw : word_ids_of vocab_dict (tokenize s) = none :=
    mapM_eq_none_of_mem _ ht (by rw [tryLookup_eq_lookup]; exact habs)
  have henc := encodeRow_eq_none tokenize vocab_dict pad_to s hw
  unfold convert_to_ids
  rw [mapM_eq_none_of_mem (encodeRow tokenize vocab_dict pad_to) hs henc]
  rfl

theorem claim_C2_witness :
    tryLookup [("a", 1)] "b" = List.lookup "b" [("a", 1)] ∧
    convert_to_ids tokSelf ["b"] [("a", 1)] 3 = none :=
  claim_C2_oov_fatal tokSelf ["b"] [("a", 1)] 3 "b" "b" (by decide) (by decide)
    (by decide)

/-! C8: mini-batch slicing -/

theorem take_slice_append {α : Type} (l : List α) {a b : Nat} (hab : a ≤ b) :
    l.take a ++ pySlice l a b = l.take b := by
  have h1 : (l.take b).take a = l.take a := by
    rw [List.take_take, Nat.min_eq_left hab]
  calc l.take a ++ pySlice l a b
      = (l.take b).take a ++ (l.take b).drop a := by rw [h1]; rfl
    _ = l.take b := List.take_append_drop a (l.take b)

theorem flatten_slices_take {α : Type} (bs : Nat) (l : List α) (k : Nat) :
    ((List.range k).map (fun b => pySlice l (b * bs) ((b + 1) * bs))).flatten =
      l.take (k * bs) := by
  induction k with
  | zero => simp [pySlice]
  | succ k ih =>
    rw [List.range_succ, List.map_append, List.flatten_append]
    simp only [List.map_cons, List.map_nil, List.flatten_cons, List.flatten_nil,
      List.append_nil]
    rw [ih]
    exact take_slice_append l (Nat.mul_le_mul_right bs (Nat.le_succ k))

/-- Claim C8: Each epoch's training pass visits the training set in the
consecutive index slices `[b*batch_size, (b+1)*batch_size)` for
`b = 0 .. len // batch_size`; their concatenation is the whole training set
in index order (each example exactly once, non-shuffled), and the batched
accuracy computation uses the identical index ranges. -/
theorem claim_C8_batching {α : Type} (batch_size : Nat) (hbs : 0 < batch_size)
    (x_train : List α) :
    trainBatchBounds x_train.length batch_size =
      accBatchBounds x_train.length batch_size ∧
    (epochBatches batch_size x_train).flatten = x_train := by
  refine ⟨rfl, ?_⟩
  have hflat := flatten_slices_take batch_size x_train
    (x_train.length / batch_size + 1)
  have hcomp : (epochBatches batch_size x_train) =
      (List.range (x_train.length / batch_size + 1)).map
        (fun b => pySlice x_train (b * batch_size) ((b + 1) * batch_size)) := by
    unfold epochBatches trainBatchBounds
    rw [List.map_map]
    rfl
  rw [hcomp, hflat]
  apply List.take_of_length_le
  have h1 := Nat.div_add_mod x_train.length batch_size
  have h2 := Nat.mod_lt x_train.length hbs
  have h3 : x_train.length < (x_train.length / batch_size + 1) * batch_size := by
    calc x_train.length
        = batch_size * (x_train.length / batch_size) + x_train.length % batch_size :=
          h1.symm
      _ < batch_size * (x_train.length / batch_size) + batch_size :=
          Nat.add_lt_add_left h2 _
      _ = (x_train.length / batch_size + 1) * batch_size := by ring
  exact Nat.le_of_lt h3

theorem claim_C8_witness :
    trainBatchBounds ([10, 20, 30, 40, 50] : List Nat).length 2 =
      accBatchBounds ([10, 20, 30, 40, 50] : List Nat).length 2 ∧
    (epochBatches 2 ([10, 20, 30, 40, 50] : List Nat)).flatten =
      [10, 20, 30, 40, 50] :=
  claim_C8_batching 2 (by decide) [10, 20, 30, 40, 50]

/-! C9: no-information rate -/

/-- Claim C9: The reported no-information rate equals `100` times the count of
the majority class in the test set divided by the total number of test
examples: there is a label `m` occurring in `y` whose count dominates the
count of every label, and `noInfoRate y = 100 * count m / length y`. -/
theorem claim_C9_no_info_rate (y : List Nat) (hne : y ≠ []) :
    ∃ m ∈ y, (∀ v, y.count v ≤ y.count m) ∧
      noInfoRate y = 100 * (y.count m : ℚ) / (y.length : ℚ) := by
  obtain ⟨a, ha⟩ := List.exists_mem_of_ne_nil y hne
  have had : a ∈ y.dedup := List.mem_dedup.mpr ha
  have hca : y.count a ∈ labelCounts y := List.mem_map_of_mem _ had
  have hpos : 0 < y.count a := List.count_pos_iff.mpr ha
  have hmaxpos : 0 < (labelCounts y).foldl max 0 :=
    lt_of_lt_of_le hpos (le_foldl_max_of_mem hca 0)
  have hmem : (labelCounts y).foldl max 0 ∈ labelCounts y := by
    rcases foldl_max_eq_or_mem (labelCounts y) 0 with h | h
    · omega
    · exact h
  obtain ⟨m, hmd, hm⟩ := List.mem_map.mp hmem
  refine ⟨m, List.mem_dedup.mp hmd, ?_, ?_⟩
  · intro v
    by_cases hv : v ∈ y
    · have : y.count v ∈ labelCounts y :=
        List.mem_map_of_mem _ (List.mem_dedup.mpr hv)
      rw [hm]
      exact le_foldl_max_of_mem this 0
    · rw [List.count_eq_zero.mpr hv]
      exact Nat.zero_le _
  · unfold noInfoRate
    rw [hm]

theorem claim_C9_witness :
    ∃ m ∈ ([0, 1, 1] : List Nat), (∀ v, ([0, 1, 1] : List Nat).count v ≤ ([0, 1, 1] : List Nat).count m) ∧
      noInfoRate [0, 1, 1] = 100 * (([0, 1, 1] : List Nat).count m : ℚ) / (([0, 1, 1] : List Nat).length : ℚ) :=
  claim_C9_no_info_rate [0, 1, 1] (by decide)

/-! C5: monotonic checkpointing -/

theorem ckptStep_best (s : CkptState) (a : ℚ) :
    (ckptStep true s a).acc_dev_best = max s.acc_dev_best a := by
  unfold ckptStep
  by_cases h : a > s.acc_dev_best
  · rw [if_pos ⟨h, rfl⟩]
    exact (max_eq_right (le_of_lt h)).symm
  · rw [if_neg (fun hc => h hc.1)]
    exact (max_eq_left (not_lt.mp h)).symm

theorem runCkpt_best (acc_vals : List ℚ) :
    ∀ s : CkptState,
      (acc_vals.foldl (ckptStep true) s).acc_dev_best =
        acc_vals.foldl max s.acc_dev_best := by
  induction acc_vals with
  | nil => intro s; rfl
  | cons a l ih =>
    intro s
    rw [List.foldl_cons, List.foldl_cons, ih, ckptStep_best]

theorem runCkpt_saved (acc_vals : List ℚ) :
    ∀ s : CkptState, 0 ≤ s.acc_dev_best →
      s.saved = (if 0 < s.acc_dev_best then some s.acc_dev_best else none) →
      (acc_vals.foldl (ckptStep true) s).saved =
        (if 0 < (acc_vals.foldl (ckptStep true) s).acc_dev_best then
          some ((acc_vals.foldl (ckptStep true) s).acc_dev_best) else none) ∧
      0 ≤ (acc_vals.foldl (ckptStep true) s).acc_dev_best := by
  induction acc_vals with
  | nil => intro s h0 hs; exact ⟨hs, h0⟩
  | cons a l ih =>
    intro s h0 hs
    rw [List.foldl_cons]
    apply ih
    · unfold ckptStep
      by_cases h : a > s.acc_dev_best
      · rw [if_pos ⟨h, rfl⟩]
        exact le_of_lt (lt_of_le_of_lt h0 h)
      · rw [if_neg (fun hc => h hc.1)]
        exact h0
    · unfold ckptStep
      by_cases h : a > s.acc_dev_best
      · rw [if_pos ⟨h, rfl⟩]
        simp only
        rw [if_pos (lt_of_le_of_lt h0 h)]
      · rw [if_neg (fun hc => h hc.1)]
        exact hs

/-- Claim C5: With checkpoint saving enabled, a checkpoint is written at an
epoch iff that epoch's validation accuracy strictly exceeds the best seen so
far (the checkpoint state changes iff `acc_dev_best < acc_val`), in which
case the best-seen value becomes the current accuracy and the checkpoint
records it; after any prefix of epochs, `acc_dev_best` is the running
maximum (with initial value `0`) of the observed validation accuracies, the
saved checkpoint is exactly that maximum whenever it is positive, the saved
value dominates every observed accuracy and is itself one of them, and the
best-seen value never regresses. -/
theorem claim_C5_checkpoint (acc_vals : List ℚ) (k : Nat) (a : ℚ)
    (ha : acc_vals[k]? = some a) :
    (runCkpt true (acc_vals.take (k + 1)) ≠ runCkpt true (acc_vals.take k) ↔
      (runCkpt true (acc_vals.take k)).acc_dev_best < a) ∧
    ((runCkpt true (acc_vals.take k)).acc_dev_best < a →
      runCkpt true (acc_vals.take (k + 1)) = ⟨a, some a⟩) ∧
    (runCkpt true (acc_vals.take (k + 1))).acc_dev_best =
      (acc_vals.take (k + 1)).foldl max 0 ∧
    (runCkpt true (acc_vals.take (k + 1))).saved =
      (if 0 < (acc_vals.take (k + 1)).foldl max 0 then
        some ((acc_vals.take (k + 1)).foldl max 0) else none) ∧
    (∀ v, (runCkpt true (acc_vals.take (k + 1))).saved = some v →
      v ∈ acc_vals.take (k + 1) ∧ ∀ b ∈ acc_vals.take (k + 1), b ≤ v) ∧
    (runCkpt true (acc_vals.take k)).acc_dev_best ≤
      (runCkpt true (acc_vals.take (k + 1))).acc_dev_best := by
  have htake : acc_vals.take (k + 1) = acc_vals.take k ++ [a] := by
    rw [List.take_succ, ha]
    rfl
  have hstep : runCkpt true (acc_vals.take (k + 1)) =
      ckptStep true (runCkpt true (acc_vals.take k)) a := by
    rw [htake]
    unfold runCkpt
    rw [List.foldl_append]
    rfl
  have hbest : (runCkpt true (acc_vals.take (k + 1))).acc_dev_best =
      (acc_vals.take (k + 1)).foldl max 0 := runCkpt_best _ _
  have hsaved2 : (runCkpt true (acc_vals.take (k + 1))).saved =
      (if 0 < (runCkpt true (acc_vals.take (k + 1))).acc_dev_best then
        some ((runCkpt true (acc_vals.take (k + 1))).acc_dev_best) else none) ∧
      0 ≤ (runCkpt true (acc_vals.take (k + 1))).acc_dev_best :=
    runCkpt_saved (acc_vals.take (k + 1)) ⟨0, none⟩ le_rfl
      (by rw [if_neg (lt_irrefl 0)])
  refine ⟨?_, ?_, hbest, ?_, ?_, ?_⟩
  · constructor
    · intro hne
      by_contra hnlt
      apply hne
      rw [hstep]
      unfold ckptStep
      rw [if_neg (fun hc => hnlt hc.1)]
    · intro hlt heq
      have h1 : runCkpt true (acc_vals.take (k + 1)) = ⟨a, some a⟩ := by
        rw [hstep]
        unfold ckptStep
        rw [if_pos ⟨hlt, rfl⟩]
      rw [h1] at heq
      have : a = (runCkpt true (acc_vals.take k)).acc_dev_best := by
        rw [← heq]
      exact absurd hlt (by rw [← this]; exact lt_irrefl a)
  · intro hlt
    rw [hstep]
    unfold ckptStep
    rw [if_pos ⟨hlt, rfl⟩]
  · rw [← hbest]
    exact hsaved2.1
  · intro v hv
    have h1 := hsaved2.1
    rw [hv] at h1
    by_cases hpos : 0 < (runCkpt true (acc_vals.take (k + 1))).acc_dev_best
    · rw [if_pos hpos] at h1
      have hv2 : v = (runCkpt true (acc_vals.take (k + 1))).acc_dev_best :=
        Option.some_inj.mp h1
      have hveq : v = (acc_vals.take (k + 1)).foldl max 0 := by
        rw [hv2, hbest]
      constructor
      · rcases foldl_max_eq_or_mem (acc_vals.take (k + 1)) (0 : ℚ) with hz | hmem
        · exfalso
          rw [hbest, hz] at hpos
          exact lt_irrefl (0 : ℚ) hpos
        · rw [hveq]; exact hmem
      · intro b hb
        rw [hveq]
        exact le_foldl_max_of_mem hb 0
    · rw [if_neg hpos] at h1
      cases h1
  · rw [hstep, ckptStep_best]
    exact le_max_left _ _

theorem claim_C5_witness :
    runCkpt true (([1, 3, 2] : List ℚ).take (1 + 1)) = ⟨3, some 3⟩ :=
  (claim_C5_checkpoint ([1, 3, 2] : List ℚ) 1 3 (by decide)).2.1 (by decide)

/-! C3: encoder output shape and dtype -/

theorem rowOf_length (pad_to : Nat) (word_ids : List Nat) :
    (rowOf pad_to word_ids).length = pad_to := by
  unfold rowOf natCastRow
  split
  · rw [List.length_map, List.length_take]
    omega
  · rw [List.length_map, List.length_append, List.length_replicate]
    omega

/-- Claim C3 as stated is false at a concrete input: the array returned by
`convert_to_ids` has dtype `float64` (the `np.empty` default), not an
integer dtype. -/
theorem claim_C3_counterexample :
    convert_to_ids tokSelf ["a"] [("a", 1)] 2 =
      some ⟨DType.float64, [[1, 0]]⟩ ∧
    DType.float64 ≠ DType.int64 := by
  constructor
  · rfl
  · decide

/-- Claim C3, amended: For every array of raw sentences, vocabulary mapping
covering all their tokens, and target length `pad_to`, `convert_to_ids`
returns a 2D array of shape `(num_sentences, pad_to)` whose dtype is
`float64` (the ids are stored as floats), where each row is the sentence's
token-id sequence truncated to `pad_to` if longer, else right-padded with
id `0` to exactly length `pad_to`. -/
theorem claim_C3_encoder (tokenize : String → List String)
    (raw_sentences : List String) (vocab_dict : List (String × Nat))
    (pad_to : Nat)
    (hcov : ∀ s ∈ raw_sentences, ∀ t ∈ tokenize s,
      (vocab_dict.lookup t).isSome) :
    ∃ arr : NpArray,
      convert_to_ids tokenize raw_sentences vocab_dict pad_to = some arr ∧
      arr.dtype = DType.float64 ∧
      arr.rows.length = raw_sentences.length ∧
      (∀ r ∈ arr.rows, r.length = pad_to) ∧
      (∀ k (hk : k < raw_sentences.length), ∃ ids : List Nat,
        word_ids_of vocab_dict (tokenize (raw_sentences.get ⟨k, hk⟩)) =
          some ids ∧
        arr.rows[k]? = some (rowOf pad_to ids)) := by
  have hids : ∀ s ∈ raw_sentences, ∃ ids : List Nat,
      word_ids_of vocab_dict (tokenize s) = some ids := by
    intro s hs
    have h1 : ∀ t ∈ tokenize s, (tryLookup vocab_dict t).isSome := by
      intro t ht
      rw [tryLookup_eq_lookup]
      exact hcov s hs t ht
    obtain ⟨ids, hids, -, -⟩ := mapM_option_spec (tryLookup vocab_dict)
      (tokenize s) h1
    exact ⟨ids, hids⟩
  have hrow : ∀ s ∈ raw_sentences,
      (encodeRow tokenize vocab_dict pad_to s).isSome := by
    intro s hs
    obtain ⟨ids, hids⟩ := hids s hs
    rw [encodeRow_eq_some tokenize vocab_dict pad_to s ids hids]
    rfl
  obtain ⟨rows, hrows, hlen, hget⟩ :=
    mapM_option_spec (encodeRow tokenize vocab_dict pad_to) raw_sentences hrow
  refine ⟨⟨DType.float64, rows⟩, ?_, rfl, hlen, ?_, ?_⟩
  · unfold convert_to_ids
    rw [hrows]
    rfl
  · intro r hr
    obtain ⟨n, hn⟩ := List.mem_iff_getElem?.mp hr
    have hn' : n < raw_sentences.length := by
      by_contra h
      rw [List.getElem?_eq_none (by omega : rows.length ≤ n)] at hn
      cases hn
    obtain ⟨ids, hids'⟩ :=
      hids (raw_sentences.get ⟨n, hn'⟩) (List.get_mem raw_sentences n hn')
    have := hget n hn'
    rw [hn, encodeRow_eq_some tokenize vocab_dict pad_to _ ids hids'] at this
    have hr2 : r = rowOf pad_to ids := Option.some_inj.mp this
    rw [hr2]
    exact rowOf_length pad_to ids
  · intro k hk
    obtain ⟨ids, hids'⟩ :=
      hids (raw_sentences.get ⟨k, hk⟩) (List.get_mem raw_sentences k hk)
    refine ⟨ids, hids', ?_⟩
    rw [hget k hk]
    exact encodeRow_eq_some tokenize vocab_dict pad_to _ ids hids'

theorem claim_C3_witness :
    ∃ arr : NpArray,
      convert_to_ids tokSelf ["a"] [("a", 1)] 3 = some arr ∧
      arr.dtype = DType.float64 ∧
      arr.rows.length = (["a"] : List String).length ∧
      (∀ r ∈ arr.rows, r.length = 3) ∧
      (∀ k (hk : k < (["a"] : List String).length), ∃ ids : List Nat,
        word_ids_of [("a", 1)] (tokSelf ((["a"] : List String).get ⟨k, hk⟩)) =
          some ids ∧
        arr.rows[k]? = some (rowOf 3 ids)) :=
  claim_C3_encoder tokSelf ["a"] [("a", 1)] 3 (by decide)

/-! C7: truncation unreachable at the auto-derived sequence length -/

theorem msLen_eq_foldl_max (tokenize : String → List String)
    (sentences : List String) :
    msLen tokenize sentences =
      ((sentences.map (fun s => (tokenize s).length)).foldl max 0) := by
  rw [List.foldl_map]
  unfold msLen
  congr 1
  funext m s
  by_cases h : m < (tokenize s).length
  · rw [if_pos h, max_eq_right (le_of_lt h)]
  · rw [if_neg h, max_eq_left (not_lt.mp h)]

theorem length_le_msLen (tokenize : String → List String)
    (sentences : List String) (s : String) (hs : s ∈ sentences) :
    (tokenize s).length ≤ msLen tokenize sentences := by
  rw [msLen_eq_foldl_max]
  exact le_foldl_max_of_mem
    (List.mem_map_of_mem (fun s => (tokenize s).length) hs) 0

/-- Claim C7: When `pad_to` equals the maximum token count returned by
`extract_vocab_dict_and_msl` over the three splits being encoded, the
truncation branch of `convert_to_ids` is unreachable: the `word_ids` list of
every sentence of every split is never longer than that maximum, and the row
produced for it is the right-padded (else-) branch. -/
theorem claim_C7_no_truncation (tokenize : String → List String)
    (sentences_train sentences_dev sentences_val : List String)
    (vocab_dict : List (String × Nat)) (msl : Nat)
    (heq : extract_vocab_dict_and_msl tokenize sentences_train sentences_dev
      sentences_val = (vocab_dict, msl))
    (s : String) (hs : s ∈ sentences_train ++ sentences_dev ++ sentences_val)
    (ids : List Nat) (hids : word_ids_of vocab_dict (tokenize s) = some ids) :
    ¬ (msl < ids.length) ∧
    rowOf msl ids = natCastRow (ids ++ List.replicate (msl - ids.length) 0) := by
  have hmsl : msl = msLen tokenize
      (sentences_train ++ sentences_dev ++ sentences_val) := by
    have := congrArg Prod.snd heq
    exact this.symm
  have hlen : ids.length = (tokenize s).length := mapM_some_length _ hids
  have hle : ids.length ≤ msl := by
    rw [hlen, hmsl]
    exact length_le_msLen tokenize _ s hs
  have hnlt : ¬ (msl < ids.length) := not_lt.mpr hle
  refine ⟨hnlt, ?_⟩
  unfold rowOf
  rw [if_neg hnlt]

theorem claim_C7_witness :
    ¬ ((extract_vocab_dict_and_msl tokSelf ["a"] [] []).2 <
        ([1] : List Nat).length) ∧
    rowOf (extract_vocab_dict_and_msl tokSelf ["a"] [] []).2 [1] =
      natCastRow (([1] : List Nat) ++
        List.replicate ((extract_vocab_dict_and_msl tokSelf ["a"] [] []).2 -
          ([1] : List Nat).length) 0) :=
  claim_C7_no_truncation tokSelf ["a"] [] []
    (extract_vocab_dict_and_msl tokSelf ["a"] [] []).1
    (extract_vocab_dict_and_msl tokSelf ["a"] [] []).2 rfl "a" (by decide) [1]
    (by decide)

/-! C6: vocabulary builder -/

theorem mem_zip_range' {α : Type} (l : List α) (s : Nat) (t : α) (i : Nat) :
    (t, i) ∈ l.zip (List.range' s l.length) ↔
      ∃ k, l[k]? = some t ∧ i = s + k := by
  induction l generalizing s with
  | nil => simp
  | cons a l ih =>
    rw [List.length_cons, List.range'_succ, List.zip_cons_cons, List.mem_cons]
    constructor
    · rintro (heq | hmem)
      · have h1 : t = a := congrArg Prod.fst heq
        have h2 : i = s := congrArg Prod.snd heq
        exact ⟨0, by rw [h1]; exact List.getElem?_cons_zero, by omega⟩
      · obtain ⟨k, hget, rfl⟩ := (ih (s + 1)).mp hmem
        exact ⟨k + 1, by simpa using hget, by omega⟩
    · rintro ⟨k, hget, rfl⟩
      cases k with
      | zero =>
        have h1 : a = t := Option.some_inj.mp (by simpa using hget)
        have h2 : s + 0 = s := by omega
        rw [h1, h2]
        exact Or.inl rfl
      | succ k =>
        exact Or.inr ((ih (s + 1)).mpr ⟨k, by simpa using hget, by omega⟩)

/-- Claim C6: `extract_vocab_dict_and_msl` returns (a) a mapping assigning each
distinct token (case-sensitively, as tokenized) a unique integer id in
`[1, N_distinct]` with all of `1..N_distinct` used — every token of the
three collections has an id, ids are functional and injective, every id
lies in the range and every id in the range is assigned — and (b) the
maximum token count over all sentences of all three collections; when all
three collections are empty it returns the empty mapping and maximum
length `0`. -/
theorem claim_C6_vocab (tokenize : String → List String)
    (sentences_train sentences_dev sentences_val : List String)
    (vocab_dict : List (String × Nat)) (msl : Nat)
    (heq : extract_vocab_dict_and_msl tokenize sentences_train sentences_dev
      sentences_val = (vocab_dict, msl)) :
    (∀ t, t ∈ allTokens tokenize
        (sentences_train ++ sentences_dev ++ sentences_val) →
      ∃ i, (t, i) ∈ vocab_dict) ∧
    (∀ t i j, (t, i) ∈ vocab_dict → (t, j) ∈ vocab_dict → i = j) ∧
    (∀ t u i, (t, i) ∈ vocab_dict → (u, i) ∈ vocab_dict → t = u) ∧
    (∀ t i, (t, i) ∈ vocab_dict → 1 ≤ i ∧
      i ≤ (allTokens tokenize
        (sentences_train ++ sentences_dev ++ sentences_val)).dedup.length) ∧
    (∀ i, 1 ≤ i →
      i ≤ (allTokens tokenize
        (sentences_train ++ sentences_dev ++ sentences_val)).dedup.length →
      ∃ t, (t, i) ∈ vocab_dict) ∧
    (∀ s ∈ sentences_train ++ sentences_dev ++ sentences_val,
      (tokenize s).length ≤ msl) ∧
    (msl = 0 ∨ ∃ s ∈ sentences_train ++ sentences_dev ++ sentences_val,
      (tokenize s).length = msl) ∧
    extract_vocab_dict_and_msl tokenize [] [] [] = ([], 0) := by
  have hv : vocab_dict =
      (allTokens tokenize
        (sentences_train ++ sentences_dev ++ sentences_val)).dedup.zip
        (List.range' 1 (allTokens tokenize
          (sentences_train ++ sentences_dev ++ sentences_val)).dedup.length) :=
    (congrArg Prod.fst heq).symm
  have hm : msl = msLen tokenize
      (sentences_train ++ sentences_dev ++ sentences_val) :=
    (congrArg Prod.snd heq).symm
  set toks := allTokens tokenize
    (sentences_train ++ sentences_dev ++ sentences_val) with htoks
  have hnd : toks.dedup.Nodup := List.nodup_dedup toks
  have hmem : ∀ t i, (t, i) ∈ vocab_dict ↔
      ∃ k, toks.dedup[k]? = some t ∧ i = 1 + k := by
    intro t i
    rw [hv]
    exact mem_zip_range' toks.dedup 1 t i
  refine ⟨?_, ?_, ?_, ?_, ?_, ?_, ?_, rfl⟩
  · intro t ht
    obtain ⟨k, hget⟩ := List.mem_iff_getElem?.mp (List.mem_dedup.mpr ht)
    exact ⟨1 + k, (hmem t (1 + k)).mpr ⟨k, hget, rfl⟩⟩
  · intro t i j hi hj
    obtain ⟨k, hget, rfl⟩ := (hmem t i).mp hi
    obtain ⟨k', hget', rfl⟩ := (hmem t j).mp hj
    obtain ⟨hk, -⟩ := List.getElem?_eq_some.mp hget
    have hkk : k = k' := List.getElem?_inj hk hnd (hget.trans hget'.symm)
    omega
  · intro t u i hi hj
    obtain ⟨k, hget, hik⟩ := (hmem t i).mp hi
    obtain ⟨k', hget', hik'⟩ := (hmem u i).mp hj
    have hkk : k = k' := by omega
    subst hkk
    exact Option.some_inj.mp (hget.symm.trans hget')
  · intro t i hi
    obtain ⟨k, hget, rfl⟩ := (hmem t i).mp hi
    obtain ⟨hk, -⟩ := List.getElem?_eq_some.mp hget
    omega
  · intro i h1 h2
    have hk : i - 1 < toks.dedup.length := by omega
    exact ⟨toks.dedup.get ⟨i - 1, hk⟩,
      (hmem _ i).mpr ⟨i - 1, List.getElem?_eq_getElem hk, by omega⟩⟩
  · intro s hs
    rw [hm]
    exact length_le_msLen tokenize _ s hs
  · rw [hm, msLen_eq_foldl_max]
    rcases foldl_max_eq_or_mem
      ((sentences_train ++ sentences_dev ++ sentences_val).map
        (fun s => (tokenize s).length)) 0 with h | h
    · exact Or.inl h
    · obtain ⟨s, hs, hlen⟩ := List.mem_map.mp h
      exact Or.inr ⟨s, hs, hlen⟩

theorem claim_C6_witness :
    ∃ i, ("a", i) ∈ (extract_vocab_dict_and_msl tokSelf ["a", "b"] [] ["a"]).1 :=
  (claim_C6_vocab tokSelf ["a", "b"] [] ["a"]
    (extract_vocab_dict_and_msl tokSelf ["a", "b"] [] ["a"]).1
    (extract_vocab_dict_and_msl tokSelf ["a", "b"] [] ["a"]).2 rfl).1 "a"
    (by decide)

/-! C4 and C10: the GloVe lookup table -/

theorem foldl_set_length {α : Type} (g : Nat → α) (ids : List Nat) :
    ∀ init : List α,
      (ids.foldl (fun t i => t.set i (g i)) init).length = init.length := by
  induction ids with
  | nil => intro init; rfl
  | cons i ids ih =>
    intro init
    rw [List.foldl_cons, ih, List.length_set]

theorem foldl_set_getElem? {α : Type} (g : Nat → α) (ids : List Nat) :
    ∀ (init : List α) (j : Nat),
      (ids.foldl (fun t i => t.set i (g i)) init)[j]? =
        if j ∈ ids ∧ j < init.length then some (g j) else init[j]? := by
  induction ids with
  | nil =>
    intro init j
    simp
  | cons i ids ih =>
    intro init j
    rw [List.foldl_cons, ih, List.length_set]
    by_cases h1 : j ∈ ids
    · by_cases h2 : j < init.length
      · rw [if_pos ⟨h1, h2⟩, if_pos ⟨List.mem_cons_of_mem i h1, h2⟩]
      · rw [if_neg (fun hc => h2 hc.2), if_neg (fun hc => h2 hc.2)]
        have e1 : (init.set i (g i))[j]? = none :=
          List.getElem?_eq_none (by rw [List.length_set]; omega)
        have e2 : init[j]? = none := List.getElem?_eq_none (by omega)
        rw [e1, e2]
    · rw [if_neg (fun hc => h1 hc.1)]
      by_cases h3 : i = j
      · subst h3
        by_cases h2 : i < init.length
        · rw [List.getElem?_set_self h2,
            if_pos ⟨List.mem_cons_self i ids, h2⟩]
        · have e1 : (init.set i (g i))[i]? = none :=
            List.getElem?_eq_none (by rw [List.length_set]; omega)
          have e2 : init[i]? = none := List.getElem?_eq_none (by omega)
          rw [e1, if_neg (fun hc => h2 hc.2), e2]
      · rw [List.getElem?_set_ne h3,
          if_neg (fun hc =>
            (List.mem_cons.mp hc.1).elim (fun he => h3 he.symm) h1)]

theorem get_glove_table_length (vocabIds : List Nat)
    (glove_dict : Nat → Option (List ℚ)) (init : List (List ℚ)) :
    (get_glove_table vocabIds glove_dict init).length = init.length := by
  unfold get_glove_table
  rw [List.length_set, foldl_set_length]

theorem get_glove_table_getElem? (vocabIds : List Nat)
    (glove_dict : Nat → Option (List ℚ)) (init : List (List ℚ)) (j : Nat) :
    (get_glove_table vocabIds glove_dict init)[j]? =
      if j = 0 then
        (if 0 < init.length then some (List.replicate 50 0) else none)
      else if j ∈ vocabIds ∧ j < init.length then
        some (gloveRow glove_dict j)
      else init[j]? := by
  unfold get_glove_table
  rw [List.getElem?_set, foldl_set_length]
  by_cases h0 : (0 : Nat) = j
  · rw [if_pos h0, if_pos h0.symm]
  · rw [if_neg h0, if_neg (fun hc => h0 hc.symm), foldl_set_getElem?]
    by_cases hm : j ∈ vocabIds ∧ j < init.length
    · rw [if_pos ⟨List.mem_mergeSort.mpr hm.1, hm.2⟩, if_pos hm]
    · rw [if_neg (fun hc => hm ⟨List.mem_mergeSort.mp hc.1, hc.2⟩),
        if_neg hm]

/-- Claim C4: For a vocabulary with ids `1..V` and any parsed pretrained
embedding mapping (with 50-dimensional vectors), `get_glove_table` builds a
table with `V + 2` rows of 50 entries each, whose row `0` is the zero
vector, whose row at each vocabulary id present in the pretrained mapping
is exactly that pretrained vector, and whose row at each vocabulary id
absent from the pretrained mapping is the all-ones vector. -/
theorem claim_C4_glove_table (V : Nat) (glove_dict : Nat → Option (List ℚ))
    (init : List (List ℚ)) (hlen : init.length = V + 2)
    (hinit : ∀ r ∈ init, r.length = 50)
    (hvec : ∀ i v, glove_dict i = some v → v.length = 50) :
    (get_glove_table (List.range' 1 V) glove_dict init).length = V + 2 ∧
    (∀ r ∈ get_glove_table (List.range' 1 V) glove_dict init,
      r.length = 50) ∧
    (get_glove_table (List.range' 1 V) glove_dict init)[0]? =
      some (List.replicate 50 0) ∧
    (∀ i v, 1 ≤ i → i ≤ V → glove_dict i = some v →
      (get_glove_table (List.range' 1 V) glove_dict init)[i]? = some v) ∧
    (∀ i, 1 ≤ i → i ≤ V → glove_dict i = none →
      (get_glove_table (List.range' 1 V) glove_dict init)[i]? =
        some (List.replicate 50 1)) := by
  refine ⟨by rw [get_glove_table_length, hlen], ?_, ?_, ?_, ?_⟩
  · intro r hr
    obtain ⟨j, hj⟩ := List.mem_iff_getElem?.mp hr
    rw [get_glove_table_getElem?] at hj
    by_cases h0 : j = 0
    · rw [if_pos h0, if_pos (by omega : 0 < init.length)] at hj
      have : List.replicate 50 (0 : ℚ) = r := Option.some_inj.mp hj
      rw [← this, List.length_replicate]
    · rw [if_neg h0] at hj
      by_cases h1 : j ∈ List.range' 1 V ∧ j < init.length
      · rw [if_pos h1] at hj
        have hr2 : gloveRow glove_dict j = r := Option.some_inj.mp hj
        unfold gloveRow at hr2
        cases hg : glove_dict j with
        | none =>
          rw [hg] at hr2
          rw [← hr2, List.length_replicate]
        | some v =>
          rw [hg] at hr2
          rw [← hr2]
          exact hvec j v hg
      · rw [if_neg h1] at hj
        obtain ⟨hb, hv⟩ := List.getElem?_eq_some.mp hj
        exact hinit r (hv ▸ List.getElem_mem hb)
  · rw [get_glove_table_getElem?, if_pos rfl,
      if_pos (by omega : 0 < init.length)]
  · intro i v h1 h2 hg
    rw [get_glove_table_getElem?, if_neg (by omega : ¬ i = 0),
      if_pos ⟨List.mem_range'_1.mpr ⟨h1, by omega⟩, by omega⟩]
    unfold gloveRow
    rw [hg]
  · intro i h1 h2 hg
    rw [get_glove_table_getElem?, if_neg (by omega : ¬ i = 0),
      if_pos ⟨List.mem_range'_1.mpr ⟨h1, by omega⟩, by omega⟩]
    unfold gloveRow
    rw [hg]

theorem claim_C4_witness :
    (get_glove_table (List.range' 1 1)
      (fun i => if i = 1 then some (List.replicate 50 (2 : ℚ)) else none)
      (List.replicate 3 (List.replicate 50 (7 : ℚ))))[1]? =
      some (List.replicate 50 (2 : ℚ)) :=
  (claim_C4_glove_table 1
    (fun i => if i = 1 then some (List.replicate 50 (2 : ℚ)) else none)
    (List.replicate 3 (List.replicate 50 (7 : ℚ))) (by decide) (by decide)
    (fun i v hv => by
      have hv' : (if i = 1 then some (List.replicate 50 (2 : ℚ)) else none) =
          some v := hv
      by_cases h : i = 1
      · rw [if_pos h] at hv'
        rw [← Option.some_inj.mp hv', List.length_replicate]
      · rw [if_neg h] at hv'
        cases hv')).2.2.2.1 1 (List.replicate 50 (2 : ℚ)) (by decide)
    (by decide) (by rw [if_pos rfl])

/-- Claim C10: `get_glove_table` writes only row `0` and the rows at the
vocabulary ids `1..V` of the `(V+2)`-row table it allocates; the final row
at index `V+1` — present because the embedding layer is sized
`vocab_size + 2` — is never assigned and retains the allocation's
(arbitrary) initial contents. -/
theorem claim_C10_untouched_row (V : Nat)
    (glove_dict : Nat → Option (List ℚ)) (init : List (List ℚ))
    (hlen : init.length = V + 2) :
    (get_glove_table (List.range' 1 V) glove_dict init).length =
      embeddingNumRows V ∧
    V + 1 < embeddingNumRows V ∧
    (get_glove_table (List.range' 1 V) glove_dict init)[V + 1]? =
      init[V + 1]? ∧
    (∀ j, j ≠ 0 → j ∉ List.range' 1 V →
      (get_glove_table (List.range' 1 V) glove_dict init)[j]? =
        init[j]?) := by
  have huntouched : ∀ j, j ≠ 0 → j ∉ List.range' 1 V →
      (get_glove_table (List.range' 1 V) glove_dict init)[j]? = init[j]? := by
    intro j h0 hj
    rw [get_glove_table_getElem?, if_neg h0, if_neg (fun hc => hj hc.1)]
  refine ⟨by rw [get_glove_table_length, hlen]; rfl,
    by unfold embeddingNumRows; omega, ?_, huntouched⟩
  exact huntouched (V + 1) (by omega)
    (fun hc => by have := List.mem_range'_1.mp hc; omega)

theorem claim_C10_witness :
    (get_glove_table (List.range' 1 1) (fun _ => none)
      (List.replicate 3 (List.replicate 50 (7 : ℚ))))[2]? =
      (List.replicate 3 (List.replicate 50 (7 : ℚ)))[2]? :=
  (claim_C10_untouched_row 1 (fun _ => none)
    (List.replicate 3 (List.replicate 50 (7 : ℚ))) (by decide)).2.2.1

/-! C1: packed-sequence lengths in `forward` -/

theorem countZeroEntries_eq (rows : List (List ℚ))
    (hw : ∀ r ∈ rows, r.length = 50)
    (hsep : ∀ r ∈ rows, (∀ e ∈ r, e = 0) ∨ (∀ e ∈ r, e ≠ 0)) :
    countZeroEntries rows = 50 * allZeroRowCount rows := by
  induction rows with
  | nil => rfl
  | cons r rows ih =>
    have hcze : countZeroEntries (r :: rows) =
        r.countP (fun e => decide (e = 0)) + countZeroEntries rows := by
      unfold countZeroEntries
      rw [List.map_cons, List.sum_cons]
    have hazc : allZeroRowCount (r :: rows) =
        allZeroRowCount rows +
          if r.all (fun e => decide (e = 0)) = true then 1 else 0 := by
      unfold allZeroRowCount
      rw [List.countP_cons]
    have ihr := ih (fun r' hr' => hw r' (List.mem_cons_of_mem r hr'))
      (fun r' hr' => hsep r' (List.mem_cons_of_mem r hr'))
    rcases hsep r (List.mem_cons_self r rows) with hz | hnz
    · have hc : r.countP (fun e => decide (e = 0)) = r.length :=
        List.countP_eq_length.mpr (fun e he => by
          rw [hz e he]; exact decide_eq_true rfl)
      have hall : r.all (fun e => decide (e = 0)) = true :=
        List.all_eq_true.mpr (fun e he => by
          rw [hz e he]; exact decide_eq_true rfl)
      rw [hcze, hazc, hc, hw r (List.mem_cons_self r rows), ihr, if_pos hall]
      ring
    · have hc : r.countP (fun e => decide (e = 0)) = 0 :=
        List.countP_eq_zero.mpr (fun e he hd => hnz e he (of_decide_eq_true hd))
      have hall : ¬ (r.all (fun e => decide (e = 0)) = true) := by
        intro hc2
        obtain ⟨e, he⟩ := List.exists_mem_of_ne_nil r (by
          intro hnil
          have := hw r (List.mem_cons_self r rows)
          rw [hnil] at this
          cases this)
        exact hnz e he (of_decide_eq_true (List.all_eq_true.mp hc2 e he))
      rw [hcze, hazc, hc, ihr, if_neg hall]
      ring

theorem codeLength_eq_specLength (seq_len : Nat) (rows : List (List ℚ))
    (hw : ∀ r ∈ rows, r.length = 50)
    (hsep : ∀ r ∈ rows, (∀ e ∈ r, e = 0) ∨ (∀ e ∈ r, e ≠ 0)) :
    codeLength seq_len rows = specLength seq_len rows := by
  unfold codeLength specLength
  rw [countZeroEntries_eq rows hw hsep]
  have hdiv : ((50 * allZeroRowCount rows : Nat) : ℚ) / 50 =
      (allZeroRowCount rows : ℚ) := by
    push_cast
    exact mul_div_cancel_left₀ _ (by norm_num)
  rw [hdiv]

/-- Claim C1 as stated is false at a concrete input: for a sequence whose
single embedded row contains one zero entry among 49 non-zero entries, the
code hands `1 - 1/50 = 49/50` to the packing routine, while `seq_len` minus
the number of all-zero embedding rows is `1`. -/
theorem claim_C1_counterexample :
    forwardLengths 1 [[(0 : ℚ) :: List.replicate 49 1]] ≠
      [specLength 1 [(0 : ℚ) :: List.replicate 49 1]] ∧
    forwardLengths 1 [[(0 : ℚ) :: List.replicate 49 1]] = [(49 : ℚ) / 50] ∧
    specLength 1 [(0 : ℚ) :: List.replicate 49 1] = 1 := by
  have hz : countZeroEntries [(0 : ℚ) :: List.replicate 49 1] = 1 := by decide
  have ha : allZeroRowCount [(0 : ℚ) :: List.replicate 49 1] = 0 := by decide
  have h2 : forwardLengths 1 [[(0 : ℚ) :: List.replicate 49 1]] =
      [(49 : ℚ) / 50] := by
    unfold forwardLengths codeLength
    rw [List.map_cons, List.map_nil, hz]
    norm_num
  have h3 : specLength 1 [(0 : ℚ) :: List.replicate 49 1] = 1 := by
    unfold specLength
    rw [ha]
    norm_num
  refine ⟨?_, h2, h3⟩
  rw [h2, h3]
  intro hc
  injection hc with h4 h5
  norm_num at h4

/-- Claim C1, amended: The per-sequence length handed to the packing routine
equals `seq_len` minus (number of zero scalar entries of the sequence's
embedded rows) / 50; provided every embedding row of every sequence in the
batch is either entirely zero or contains no zero entry, this equals
`seq_len` minus the number of all-zero embedding rows of that sequence
(the sequence's true length in the spec's sense). -/
theorem claim_C1_packed_lengths (seq_len : Nat)
    (batch : List (List (List ℚ)))
    (hw : ∀ rows ∈ batch, ∀ r ∈ rows, r.length = 50)
    (hsep : ∀ rows ∈ batch, ∀ r ∈ rows,
      (∀ e ∈ r, e = 0) ∨ (∀ e ∈ r, e ≠ 0)) :
    forwardLengths seq_len batch = batch.map (specLength seq_len) := by
  unfold forwardLengths
  exact List.map_congr_left (fun rows hrows =>
    codeLength_eq_specLength seq_len rows (hw rows hrows) (hsep rows hrows))

theorem claim_C1_witness :
    forwardLengths 2 [[List.replicate 50 (0 : ℚ), List.replicate 50 1]] =
      [[List.replicate 50 (0 : ℚ), List.replicate 50 1]].map
        (specLength 2) :=
  claim_C1_packed_lengths 2
    [[List.replicate 50 (0 : ℚ), List.replicate 50 1]] (by decide)
    (by decide)

end LSTMModel
